import Mathlib

/-!
Shallow embedding of the shared-file-system client layer of this repository:

* `openstack/cloud/_shared_file_system.py` — the legacy cloud mixin:
  cached `list_shares` with pagination retry, `create_share` with a
  timeout-polling wait loop, `update_share`, `delete_share` with cache
  invalidation and idempotent not-found handling;
* `openstack/shared_file_system/v2/share.py` and `_proxy.py` — the typed
  resource path: `Share.extend` / `Share.shrink` action requests and the
  proxy verbs `extend_share` / `shrink_share`.

HTTP interaction is modelled by oracles (functions describing the server's
responses) and by explicit traces of the requests the client issues.
External collaborators that are not part of this repository slice
(the dogpile cache decorator, `iterate_timeout`, `urljoin`,
`_get_resource`, share normalization) are modelled from the spec and
marked as such in their doc comments.
-/

namespace OpenStackSFS

/-- A JSON-like value, sufficient for the request bodies this client builds. -/
inductive Json where
  | null : Json
  | str (s : String) : Json
  | num (n : Nat) : Json
  | bool (b : Bool) : Json
  | obj (fields : List (String × Json)) : Json

/-- A share record as this client observes it: the fields the embedded code
inspects are `id` and `status`; `name` participates in name-or-id lookups. -/
structure Share where
  id : String
  name : String
  status : String
  deriving DecidableEq, Repr

/-- One entry of a `shares_links` list: a mapping that may carry a `rel` key
(the code checks `'rel' in l`) and an `href`. -/
structure Link where
  rel : Option String
  href : String
  deriving DecidableEq, Repr

/-- One response of `GET /shares/detail` or of a pagination follow request:
the `shares` items plus the `shares_links` value (`none` models the
`shares_links` key being absent from the response mapping). -/
structure Page where
  shares : List Share
  links : Option (List Link)
  deriving DecidableEq, Repr

/-- `_no_pending_shares` from `openstack/cloud/_shared_file_system.py`:
if there are any shares not in a steady state, don't cache. -/
def no_pending_shares : List Share → Bool
  | [] => true
  | share :: rest =>
    if share.status = "available" ∨ share.status = "error" then
      no_pending_shares rest
    else
      false

/-- The scan of `for l in data.get('shares_links', [])` inside `_list`:
the first link carrying `rel == 'next'` supplies the follow endpoint. -/
def nextLink : List Link → Option String
  | [] => none
  | l :: rest =>
    match l.rel with
    | some r => if r = "next" then some l.href else nextLink rest
    | none => nextLink rest

/-- Outcome of the recursive `_list` helper of `list_shares`: either all
pages were accumulated, or a follow request raised
`OpenStackCloudURINotFound` with a partial accumulation in `shares`. -/
inductive ListOutcome where
  | ok (shares : List Share) : ListOutcome
  | notFound (partAcc : List Share) : ListOutcome
  deriving DecidableEq, Repr

/-- The recursive `_list(data)` helper: extend the accumulator with the
page's shares, then follow the `next` link if present.  `follow` is the
server's response to `self._share_client.get(endpoint)`, with `none`
modelling an `OpenStackCloudURINotFound` error.  `fuel` bounds the
recursion depth so the model is total; every theorem supplies enough
fuel for the link chain at hand (`divergent` models a chain longer than
the fuel, which in the source would be a deeper recursion). -/
def listFollow (follow : String → Option Page) : Nat → Page → List Share → Option ListOutcome
  | fuel, p, acc =>
    let acc := acc ++ p.shares
    match nextLink (p.links.getD []) with
    | none => some (.ok acc)
    | some endpoint =>
      match fuel with
      | 0 => none
      | Nat.succ fuel =>
        match follow endpoint with
        | none => some (.notFound acc)
        | some p2 => listFollow follow fuel p2 acc

/-- The server behaviour observed by `list_shares`: `detail i` is the
response of `GET /shares/detail` on attempt `i` (0-based), `follow i` the
responses to pagination follow requests during attempt `i` (`none` models
`OpenStackCloudURINotFound`). -/
structure ListServer where
  detail : Nat → Page
  follow : Nat → String → Option Page

/-- The `for _ in range(attempts)` loop of `list_shares`: each attempt
resets `shares = []`, re-fetches `/shares/detail`, and either breaks out
(no pagination needed, or `_list` succeeded) or retries after a pagination
`OpenStackCloudURINotFound`; when the attempts are exhausted the partial
result of the last attempt is returned.  `idx` is the attempt number and
`lastAcc` the accumulation the previous attempt was left with. -/
def listSharesGo (srv : ListServer) (fuel : Nat) : Nat → Nat → List Share → Option (List Share)
  | _, 0, lastAcc => some lastAcc
  | idx, Nat.succ remaining, _ =>
    let data := srv.detail idx
    match data.links with
    | none => some data.shares
    | some _ =>
      match listFollow (srv.follow idx) fuel data [] with
      | none => none
      | some (.ok shares) => some shares
      | some (.notFound partAcc) =>
        listSharesGo srv fuel (idx + 1) remaining partAcc

/-- `attempts = 5` in `list_shares`. -/
def listAttempts : Nat := 5

/-- `list_shares` (uncached body) from `openstack/cloud/_shared_file_system.py`.
Share normalization (`_normalize_shares` / `_get_and_munchify`, outside this
repository slice) is modelled from the spec as the identity on the share
mappings: the spec says it returns a normalized sequence of Share-like
mappings, order and count preserved. -/
def list_shares (srv : ListServer) (fuel : Nat) : Option (List Share) :=
  listSharesGo srv fuel 0 listAttempts []

/-- The keyed cache behind `@_utils.cache_on_arguments(...)`.  Only the
`list_shares` entry matters here. -/
structure CacheState where
  cached : Option (List Share)
  deriving DecidableEq, Repr

/-- Modelled from the spec: the `_utils.cache_on_arguments` decorator
(dogpile-based, outside this repository slice).  A cached value is served
without recomputation; on a miss the wrapped function runs and its result
is stored if and only if `should_cache_fn` — here `_no_pending_shares` —
approves it.  Returns the call's result and the new cache state. -/
def list_shares_cached (srv : ListServer) (fuel : Nat) (st : CacheState) :
    Option (List Share) × CacheState :=
  match st.cached with
  | some r => (some r, st)
  | none =>
    match list_shares srv fuel with
    | none => (none, st)
    | some r =>
      (some r, if no_pending_shares r then ⟨some r⟩ else ⟨none⟩)

/-! ## `create_share` and its wait loop -/

/-- Outcome of a mixin call: a normal return, a raised
`OpenStackCloudException` ("Error in creating/deleting share"), or a raised
`OpenStackCloudTimeout` from `iterate_timeout`. -/
inductive CreateOutcome where
  | ret (s : Share) : CreateOutcome
  | raisedCloud : CreateOutcome
  | raisedTimeout : CreateOutcome
  deriving DecidableEq, Repr

/-- The environment of one `create_share` call: the share the
`POST /shares` response reports (already through the normalization that the
spec models as the identity), and the `get_share(share_id)` results the
wait loop observes on its successive iterations (`none` = lookup found
nothing, the loop's `continue` branch). -/
structure CreateEnv where
  postShare : Share
  poll : Nat → Option Share

/-- The `for count in utils.iterate_timeout(timeout, ...)` wait loop of
`create_share`.  `iterate_timeout` (outside this repository slice) is
modelled from the spec: it repeatedly yields control and raises a timeout
error once the configured bound elapses, so the bound appears as `fuel`,
the number of loop iterations the timeout budget admits; a `None`
(unbounded) timeout corresponds to every sufficiently large fuel, as the
theorems make precise.  `k` is the iteration counter. -/
def createWait (poll : Nat → Option Share) : Nat → Nat → CreateOutcome
  | 0, _ => .raisedTimeout
  | Nat.succ fuel, k =>
    match poll k with
    | none => createWait poll fuel (k + 1)
    | some share =>
      if share.status = "available" then .ret share
      else if share.status = "error" then .raisedCloud
      else createWait poll fuel (k + 1)

/-- A poll observation on which the `create_share` wait loop stops:
a share whose status is `available` (return) or `error` (raise).  A `none`
lookup or any other status makes the loop retry. -/
def decisive : Option Share → Bool
  | none => false
  | some share => decide (share.status = "available" ∨ share.status = "error")

/-- `create_share` from `openstack/cloud/_shared_file_system.py`, from the
point the `POST /shares` response is in hand: normalize (identity per the
spec model), invalidate the list cache, raise if the reported status is
`error`, then either enter the wait loop (`wait=True`) or return the share. -/
def create_share (wait : Bool) (fuel : Nat) (env : CreateEnv) : CreateOutcome :=
  let share := env.postShare
  if share.status = "error" then .raisedCloud
  else if wait then createWait env.poll fuel 0
  else .ret share

/-! ## `delete_share`, `update_share` and the typed action requests -/

/-- A client-side effect in the order it happens: a cache invalidation
(`self.list_shares.invalidate(self)`), a `get_share` lookup, or an HTTP
request issued through the share client / session. -/
inductive Event where
  | invalidate : Event
  | getShare (nameOrId : String) : Event
  | httpDelete (path : String) : Event
  | httpPost (path : String) (body : Json) : Event
  | httpPut (path : String) (body : Json) : Event

/-- Recognizer for cache-invalidation events (used to count them). -/
def Event.isInvalidate : Event → Bool
  | .invalidate => true
  | _ => false

/-- Server response to the DELETE (or force-delete action) request inside
`delete_share`: success, `OpenStackCloudURINotFound`, or some other error
(which `shade_exceptions` rewraps and raises). -/
inductive DelResp where
  | ok : DelResp
  | notFound : DelResp
  | err : DelResp
  deriving DecidableEq, Repr

/-- The environment of one `delete_share` call: the `get_share(name_or_id)`
lookup result, the response to the delete request, and the
`get_share(share['id'])` results the optional wait loop observes. -/
structure DeleteEnv where
  lookup : Option Share
  delResp : DelResp
  poll : Nat → Option Share

/-- Outcome of `delete_share`: a boolean return, a raised
`OpenStackCloudException`, or a raised `OpenStackCloudTimeout`. -/
inductive DeleteOutcome where
  | ret (b : Bool) : DeleteOutcome
  | raisedCloud : DeleteOutcome
  | raisedTimeout : DeleteOutcome
  deriving DecidableEq, Repr

/-- The body `{'os-force_delete': None}` of the force-delete action. -/
def forceDeleteBody : Json := .obj [("os-force_delete", .null)]

/-- The wait loop of `delete_share`: poll `get_share(share['id'])` until it
returns nothing (`break`), with `iterate_timeout` modelled from the spec as
in `createWait`; `true` means the loop broke, `false` that the timeout
budget elapsed first. -/
def deleteWait (poll : Nat → Option Share) : Nat → Nat → Bool
  | 0, _ => false
  | Nat.succ fuel, k =>
    match poll k with
    | none => true
    | some _ => deleteWait poll fuel (k + 1)

/-- `delete_share` from `openstack/cloud/_shared_file_system.py`, returning
its outcome together with the trace of cache invalidations, lookups and
HTTP requests in program order (wait-loop lookups are not traced; only the
outcome depends on them). -/
def delete_share (nameOrId : String) (wait : Bool) (fuel : Nat) (force : Bool)
    (env : DeleteEnv) : DeleteOutcome × List Event :=
  let tr : List Event := [.invalidate, .getShare nameOrId]
  match env.lookup with
  | none => (.ret false, tr)
  | some share =>
    let req : Event :=
      if force then
        .httpPost ("shares/" ++ share.id ++ "/action") forceDeleteBody
      else
        .httpDelete ("shares/" ++ share.id)
    let tr := tr ++ [req]
    match env.delResp with
    | .notFound => (.ret false, tr)
    | .err => (.raisedCloud, tr)
    | .ok =>
      let tr := tr ++ [.invalidate]
      (if wait then
        (if deleteWait env.poll fuel 0 then DeleteOutcome.ret true
         else DeleteOutcome.raisedTimeout)
      else DeleteOutcome.ret true, tr)

/-- Python truthiness of the optional string arguments of `update_share`
(`None` and the empty string are falsy). -/
def truthyStr : Option String → Bool
  | none => false
  | some s => !(s = "")

/-- Python truthiness of the optional boolean argument of `update_share`
(`None` and `False` are falsy). -/
def truthyBool : Option Bool → Bool
  | none => false
  | some b => b

/-- The `share_ref` mapping that `update_share` builds: each of the three
keys is added only when the corresponding argument is truthy. -/
def update_share_ref (displayName displayDescription : Option String)
    (isPublic : Option Bool) : List (String × Json) :=
  (if truthyStr displayName then
    [("display_name", Json.str (displayName.getD ""))] else [])
  ++ (if truthyStr displayDescription then
    [("display_description", Json.str (displayDescription.getD ""))] else [])
  ++ (if truthyBool isPublic then
    [("is_public", Json.bool (isPublic.getD false))] else [])

/-- `update_share` from `openstack/cloud/_shared_file_system.py`: look up
the share, raise `OpenStackCloudException` if absent, else PUT
`{'share': share_ref}` to `/shares/{id}`.  Returns the issued request. -/
def update_share (lookup : Option Share) (displayName displayDescription : Option String)
    (isPublic : Option Bool) : Except Unit Event :=
  match lookup with
  | none => .error ()
  | some share =>
    .ok (.httpPut ("/shares/" ++ share.id)
      (Json.obj [("share", Json.obj
        (update_share_ref displayName displayDescription isPublic))]))

/-- `Share.base_path` from `openstack/shared_file_system/v2/share.py`. -/
def share_base_path : String := "/shares"

/-- Modelled from the spec: `utils.urljoin` (outside this repository slice)
joins its three components with single slashes; per the spec the action
endpoint is `/shares/{id}/action`. -/
def urljoin3 (a b c : String) : String := a ++ "/" ++ b ++ "/" ++ c

/-- The URL built by `Share._action`:
`utils.urljoin(Share.base_path, self.id, 'action')`. -/
def share_action_url (id : String) : String := urljoin3 share_base_path id "action"

/-- `Share._action` from `openstack/shared_file_system/v2/share.py`:
POST the given body to the share's action endpoint.  The issued request is
returned as the trace. -/
def Share.action (id : String) (body : Json) : List Event :=
  [.httpPost (share_action_url id) body]

/-- `Share.extend`: POST `{'os-extend': {'new_size': size}}` to the action
endpoint; the session response is discarded, so the call returns `Unit`. -/
def Share.extend (id : String) (size : Nat) : Unit × List Event :=
  ((), Share.action id (.obj [("os-extend", .obj [("new_size", .num size)])]))

/-- `Share.shrink`: POST `{'os-shrink': {'new_size': size}}` to the action
endpoint; the session response is discarded, so the call returns `Unit`. -/
def Share.shrink (id : String) (size : Nat) : Unit × List Event :=
  ((), Share.action id (.obj [("os-shrink", .obj [("new_size", .num size)])]))

/-- `Proxy.extend_share` from `openstack/shared_file_system/v2/_proxy.py`:
`_get_resource` (outside this repository slice) is modelled from the spec
as resolving the ID to a local `Share` object without issuing any request,
then `share.extend(self, size)` runs. -/
def extend_share (shareId : String) (size : Nat) : Unit × List Event :=
  Share.extend shareId size

/-- `Proxy.shrink_share`, analogously to `extend_share`. -/
def shrink_share (shareId : String) (size : Nat) : Unit × List Event :=
  Share.shrink shareId size

/-! ## Analysis helpers and concrete sample inputs -/

/-- Recognizer for DELETE requests in a trace. -/
def Event.isHttpDelete : Event → Bool
  | .httpDelete _ => true
  | _ => false

/-- Recognizer for POST requests in a trace. -/
def Event.isHttpPost : Event → Bool
  | .httpPost _ _ => true
  | _ => false

/-- The server presents a resolvable pagination chain: starting from page
`p`, the successive `next` links resolve through `follow` to the pages of
`ps` in order, and the last page has no `next` link. -/
def ChainFrom (follow : String → Option Page) : Page → List Page → Prop
  | p, [] => nextLink (p.links.getD []) = none
  | p, q :: rest =>
    ∃ href, nextLink (p.links.getD []) = some href ∧ follow href = some q ∧
      ChainFrom follow q rest

/-- The set of keys of the `share_ref` body built by `update_share`. -/
def refKeys (displayName displayDescription : Option String)
    (isPublic : Option Bool) : List String :=
  (update_share_ref displayName displayDescription isPublic).map Prod.fst

/-- A `delete_share` environment where the share is found but the DELETE
request itself reports `OpenStackCloudURINotFound`. -/
def envDelNotFound : DeleteEnv :=
  ⟨some ⟨"sid", "nm", "available"⟩, DelResp.notFound, fun _ => none⟩

/-- A `delete_share` environment where the share is found and the DELETE
request succeeds. -/
def envDelOk : DeleteEnv :=
  ⟨some ⟨"sid", "nm", "available"⟩, DelResp.ok, fun _ => none⟩

/-- A `delete_share` environment where the initial lookup finds nothing. -/
def envDelAbsent : DeleteEnv := ⟨none, DelResp.ok, fun _ => none⟩

/-- A `delete_share` environment for the not-found-on-DELETE path, used by
the idempotent-delete witness. -/
def envDelGone : DeleteEnv :=
  ⟨some ⟨"sid2", "nm2", "error"⟩, DelResp.notFound, fun _ => none⟩

/-- A poll oracle whose first decisive observation is an `available` share
at iteration 2 (iteration 0 returns nothing, iteration 1 a share still
`creating`). -/
def pollAvail : Nat → Option Share := fun k =>
  if k = 0 then none
  else if k = 1 then some ⟨"sid", "nm", "creating"⟩
  else some ⟨"sid", "nm", "available"⟩

/-- A one-page listing whose single share is still `creating`. -/
def srvPending : ListServer :=
  ⟨fun _ => ⟨[⟨"x", "x", "creating"⟩], none⟩, fun _ _ => none⟩

/-- A one-page listing whose single share is `available`. -/
def srvSteady : ListServer :=
  ⟨fun _ => ⟨[⟨"y", "y", "available"⟩], none⟩, fun _ _ => none⟩

/-- A first page carrying a `next` link that the server then fails to
resolve (every follow request reports not found). -/
def pageRetry : Page := ⟨[⟨"a", "a", "creating"⟩], some [⟨some "next", "u"⟩]⟩

/-- A server on which every attempt's follow request reports not found. -/
def srvRetry : ListServer := ⟨fun _ => pageRetry, fun _ _ => none⟩

/-- Second page of a two-page chain: no further `next` link. -/
def pageB : Page := ⟨[⟨"c", "c", "available"⟩], some []⟩

/-- First page of a two-page chain, with a `next` link to `u2`. -/
def pageA : Page :=
  ⟨[⟨"a", "a", "available"⟩, ⟨"b", "b", "creating"⟩], some [⟨some "next", "u2"⟩]⟩

/-- A server presenting the two-page chain `pageA`, `pageB`. -/
def srvChain : ListServer :=
  ⟨fun _ => pageA, fun _ h => if h = "u2" then some pageB else none⟩

/-! ## Helper lemmas -/

theorem no_pending_iff (l : List Share) :
    no_pending_shares l = true ↔
      ∀ s ∈ l, s.status = "available" ∨ s.status = "error" := by
  induction l with
  | nil => simp [no_pending_shares]
  | cons share rest ih =>
    by_cases h : share.status = "available" ∨ share.status = "error"
    · simp [no_pending_shares, h, ih]
    · simp [no_pending_shares, h]

theorem createWait_step (poll : Nat → Option Share) (fuel k : Nat)
    (h : decisive (poll k) = false) :
    createWait poll (fuel + 1) k = createWait poll fuel (k + 1) := by
  cases hp : poll k with
  | none => simp [createWait, hp]
  | some share =>
    have h' : ¬(share.status = "available" ∨ share.status = "error") := by
      simpa [decisive, hp] using h
    push_neg at h'
    simp [createWait, hp, h'.1, h'.2]

theorem createWait_shift (poll : Nat → Option Share) :
    ∀ (n fuel start : Nat),
      (∀ j, j < n → decisive (poll (start + j)) = false) →
      createWait poll (n + fuel) start = createWait poll fuel (start + n) := by
  intro n
  induction n with
  | zero => intro fuel start _; simp
  | succ n ih =>
    intro fuel start h
    have h0 : decisive (poll start) = false := by
      simpa using h 0 (Nat.succ_pos n)
    have he : n + 1 + fuel = (n + fuel) + 1 := by omega
    rw [he, createWait_step poll (n + fuel) start h0]
    have h' : ∀ j, j < n → decisive (poll (start + 1 + j)) = false := by
      intro j hj
      have := h (j + 1) (by omega)
      have harg : start + (j + 1) = start + 1 + j := by omega
      rwa [harg] at this
    rw [ih fuel (start + 1) h']
    congr 1
    omega

theorem createWait_timeout (poll : Nat → Option Share) (fuel : Nat)
    (h : ∀ k, k < fuel → decisive (poll k) = false) :
    createWait poll fuel 0 = CreateOutcome.raisedTimeout := by
  have := createWait_shift poll fuel 0 0 (by intro j hj; simpa using h j hj)
  simpa [createWait] using this

theorem createWait_first (poll : Nat → Option Share) (fuel k : Nat) (s : Share)
    (hk : k < fuel) (hp : poll k = some s)
    (hbefore : ∀ j, j < k → decisive (poll j) = false) :
    createWait poll fuel 0 =
      (if s.status = "available" then CreateOutcome.ret s
       else if s.status = "error" then CreateOutcome.raisedCloud
       else createWait poll (fuel - k - 1) (k + 1)) := by
  have hfk : fuel = k + (fuel - k - 1 + 1) := by omega
  rw [hfk, createWait_shift poll k (fuel - k - 1 + 1) 0
    (by intro j hj; simpa using hbefore j hj)]
  simp [createWait, hp]

theorem listFollow_nolink (follow : String → Option Page) (fuel : Nat) (p : Page)
    (acc : List Share) (hn : nextLink (p.links.getD []) = none) :
    listFollow follow fuel p acc = some (ListOutcome.ok (acc ++ p.shares)) := by
  unfold listFollow
  simp only [hn]

theorem listFollow_link (follow : String → Option Page) (fuel : Nat) (p p2 : Page)
    (acc : List Share) (href : String)
    (hn : nextLink (p.links.getD []) = some href) (hf : follow href = some p2) :
    listFollow follow (fuel + 1) p acc = listFollow follow fuel p2 (acc ++ p.shares) := by
  conv_lhs => unfold listFollow
  simp only [hn, hf]

theorem listFollow_404 (follow : String → Option Page) (fuel : Nat) (p : Page)
    (acc : List Share) (href : String)
    (hn : nextLink (p.links.getD []) = some href) (hf : follow href = none) :
    listFollow follow (fuel + 1) p acc =
      some (ListOutcome.notFound (acc ++ p.shares)) := by
  unfold listFollow
  simp only [hn, hf]

theorem listFollow_chain (follow : String → Option Page) :
    ∀ (ps : List Page) (p : Page) (acc : List Share) (fuel : Nat),
      ChainFrom follow p ps → ps.length ≤ fuel →
      listFollow follow fuel p acc =
        some (ListOutcome.ok (acc ++ p.shares ++ (ps.map Page.shares).flatten)) := by
  intro ps
  induction ps with
  | nil =>
    intro p acc fuel hc _
    have hn : nextLink (p.links.getD []) = none := hc
    rw [listFollow_nolink follow fuel p acc hn]
    simp
  | cons q rest ih =>
    intro p acc fuel hc hlen
    obtain ⟨href, hnext, hfollow, hrest⟩ := hc
    obtain ⟨fuel', rfl⟩ : ∃ f, fuel = f + 1 :=
      ⟨fuel - 1, by simp at hlen; omega⟩
    have hlen' : rest.length ≤ fuel' := by simp at hlen; omega
    rw [listFollow_link follow fuel' p q acc href hnext hfollow]
    rw [ih q (acc ++ p.shares) fuel' hrest hlen']
    simp [List.append_assoc]

theorem listSharesGo_succeed (srv : ListServer) (fuel : Nat) (s : List Share) :
    ∀ (remaining idx : Nat) (lastAcc : List Share) (j : Nat),
      idx ≤ j → j < idx + remaining →
      (∀ i, idx ≤ i → i < j →
        (∃ ls, (srv.detail i).links = some ls) ∧
        ∃ acc, listFollow (srv.follow i) fuel (srv.detail i) [] =
          some (ListOutcome.notFound acc)) →
      (((srv.detail j).links = none ∧ s = (srv.detail j).shares) ∨
        ((∃ ls, (srv.detail j).links = some ls) ∧
          listFollow (srv.follow j) fuel (srv.detail j) [] =
            some (ListOutcome.ok s))) →
      listSharesGo srv fuel idx remaining lastAcc = some s := by
  intro remaining
  induction remaining with
  | zero =>
    intro idx lastAcc j h1 h2 _ _
    exact absurd h2 (by omega)
  | succ rem ih =>
    intro idx lastAcc j h1 h2 hfail hsucc
    by_cases hj : j = idx
    · subst hj
      rcases hsucc with ⟨hnone, rfl⟩ | ⟨⟨ls, hls⟩, hok⟩
      · simp [listSharesGo, hnone]
      · simp [listSharesGo, hls, hok]
    · have hidx : idx < j := by omega
      obtain ⟨⟨ls, hls⟩, ⟨acc, hnf⟩⟩ := hfail idx (le_refl idx) hidx
      simp only [listSharesGo, hls, hnf]
      exact ih (idx + 1) acc j (by omega) (by omega)
        (fun i hi1 hi2 => hfail i (by omega) hi2) hsucc

theorem listSharesGo_allfail (srv : ListServer) (fuel : Nat)
    (part : Nat → List Share) :
    ∀ (remaining idx : Nat) (lastAcc : List Share),
      1 ≤ remaining →
      (∀ i, idx ≤ i → i < idx + remaining →
        (∃ ls, (srv.detail i).links = some ls) ∧
        listFollow (srv.follow i) fuel (srv.detail i) [] =
          some (ListOutcome.notFound (part i))) →
      listSharesGo srv fuel idx remaining lastAcc =
        some (part (idx + remaining - 1)) := by
  intro remaining
  induction remaining with
  | zero =>
    intro idx lastAcc h _
    exact absurd h (by omega)
  | succ rem ih =>
    intro idx lastAcc _ hfail
    obtain ⟨⟨ls, hls⟩, hnf⟩ := hfail idx (le_refl idx) (by omega)
    simp only [listSharesGo, hls, hnf]
    by_cases hrem : rem = 0
    · subst hrem
      simp [listSharesGo]
    · rw [ih (idx + 1) (part idx) (by omega)
        (fun i hi1 hi2 => hfail i (by omega) (by omega))]
      have harg : idx + 1 + rem - 1 = idx + (rem + 1) - 1 := by omega
      rw [harg]

theorem listSharesGo_congr (srv srv2 : ListServer) (fuel : Nat) :
    ∀ (remaining idx : Nat) (lastAcc : List Share),
      (∀ i, idx ≤ i → i < idx + remaining →
        srv2.detail i = srv.detail i ∧ srv2.follow i = srv.follow i) →
      listSharesGo srv2 fuel idx remaining lastAcc =
        listSharesGo srv fuel idx remaining lastAcc := by
  intro remaining
  induction remaining with
  | zero => intro idx lastAcc _; rfl
  | succ rem ih =>
    intro idx lastAcc hagree
    obtain ⟨hd, hf⟩ := hagree idx (le_refl idx) (by omega)
    simp only [listSharesGo, hd, hf]
    cases hls : (srv.detail idx).links with
    | none => rfl
    | some ls =>
      cases hlf : listFollow (srv.follow idx) fuel (srv.detail idx) [] with
      | none => rfl
      | some outcome =>
        cases outcome with
        | ok shares => rfl
        | notFound acc =>
          exact ih (idx + 1) acc (fun i hi1 hi2 => hagree i (by omega) (by omega))

theorem list_shares_cached_cold (srv : ListServer) (fuel : Nat) :
    (list_shares_cached srv fuel ⟨none⟩).1 = list_shares srv fuel := by
  simp only [list_shares_cached]
  cases list_shares srv fuel <;> rfl

theorem list_shares_cached_hot (srv : ListServer) (fuel : Nat) (r : List Share) :
    list_shares_cached srv fuel ⟨some r⟩ = (some r, ⟨some r⟩) := rfl

theorem truthyStr_iff (o : Option String) :
    truthyStr o = true ↔ ∃ s, o = some s ∧ s ≠ "" := by
  cases o with
  | none => simp [truthyStr]
  | some s => simp [truthyStr]

theorem truthyBool_iff (o : Option Bool) : truthyBool o = true ↔ o = some true := by
  cases o with
  | none => simp [truthyBool]
  | some b => cases b <;> simp [truthyBool]

theorem refKeys_eq (dn dd : Option String) (ip : Option Bool) :
    refKeys dn dd ip =
      (if truthyStr dn then ["display_name"] else []) ++
      (if truthyStr dd then ["display_description"] else []) ++
      (if truthyBool ip then ["is_public"] else []) := by
  unfold refKeys update_share_ref
  cases truthyStr dn <;> cases truthyStr dd <;> cases truthyBool ip <;> simp

/-! ## The claims -/

/-- C1: For every result of `list_shares`, if any share in the result has a
status outside `{"available", "error"}`, the result is not stored in the
cache (a subsequent `list_shares` call re-fetches); a result in which every
share is in status `available` or `error` is cached (a subsequent call is
served from the cache without re-fetching). -/
theorem list_shares_cache_spec :
    ∀ (srv : ListServer) (fuel : Nat) (r : List Share),
      list_shares srv fuel = some r →
      ((∃ s ∈ r, s.status ≠ "available" ∧ s.status ≠ "error") →
        (list_shares_cached srv fuel ⟨none⟩).2 = ⟨none⟩ ∧
        ∀ (srv2 : ListServer) (fuel2 : Nat),
          (list_shares_cached srv2 fuel2 (list_shares_cached srv fuel ⟨none⟩).2).1 =
            list_shares srv2 fuel2) ∧
      ((∀ s ∈ r, s.status = "available" ∨ s.status = "error") →
        (list_shares_cached srv fuel ⟨none⟩).2 = ⟨some r⟩ ∧
        ∀ (srv2 : ListServer) (fuel2 : Nat),
          (list_shares_cached srv2 fuel2 (list_shares_cached srv fuel ⟨none⟩).2).1 =
            some r) := by
  intro srv fuel r hr
  have hcall : list_shares_cached srv fuel ⟨none⟩ =
      (some r, if no_pending_shares r then ⟨some r⟩ else ⟨none⟩) := by
    simp [list_shares_cached, hr]
  constructor
  · intro hpend
    have hnp : no_pending_shares r = false := by
      rcases hpend with ⟨s, hs, h1, h2⟩
      cases hb : no_pending_shares r with
      | false => rfl
      | true =>
        rcases (no_pending_iff r).mp hb s hs with h | h
        · exact absurd h h1
        · exact absurd h h2
    rw [hcall]
    simp only [hnp, Bool.false_eq_true, if_false]
    exact ⟨by trivial, fun srv2 fuel2 => list_shares_cached_cold srv2 fuel2⟩
  · intro hsteady
    have hnp : no_pending_shares r = true := (no_pending_iff r).mpr hsteady
    rw [hcall]
    simp only [hnp, if_true]
    refine ⟨by trivial, fun srv2 fuel2 => ?_⟩
    rw [list_shares_cached_hot srv2 fuel2 r]

/-- C1 witness: on a server whose single share is `creating` the result is
not cached; on a server whose single share is `available` it is cached. -/
theorem list_shares_cache_spec_witness :
    (list_shares_cached srvPending 1 ⟨none⟩).2 = ⟨none⟩ ∧
    (list_shares_cached srvSteady 1 ⟨none⟩).2 = ⟨some [⟨"y", "y", "available"⟩]⟩ := by
  constructor
  · exact ((list_shares_cache_spec srvPending 1 [⟨"x", "x", "creating"⟩]
      (by decide)).1 (by decide)).1
  · exact ((list_shares_cache_spec srvSteady 1 [⟨"y", "y", "available"⟩]
      (by decide)).2 (by decide)).1

/-- C2 (amended): for every call to `delete_share` that finds the named
share, the cache is invalidated before the DELETE (or force-delete action)
request is issued; when the request completes successfully it is
invalidated again before `delete_share` returns.  When the request itself
reports not-found (or fails), `delete_share` returns `False` (respectively
raises) with only the initial invalidation. -/
theorem delete_share_invalidation_spec :
    ∀ (n : String) (wait force : Bool) (fuel : Nat) (env : DeleteEnv)
      (share : Share),
      env.lookup = some share →
      (delete_share n wait fuel force env).2 =
        [Event.invalidate, Event.getShare n,
          if force then
            Event.httpPost ("shares/" ++ share.id ++ "/action") forceDeleteBody
          else Event.httpDelete ("shares/" ++ share.id)] ++
        (if env.delResp = DelResp.ok then [Event.invalidate] else []) ∧
      (env.delResp = DelResp.notFound →
        (delete_share n wait fuel force env).1 = DeleteOutcome.ret false) := by
  intro n wait force fuel env share h
  constructor
  · cases hr : env.delResp <;> cases force <;>
      simp [delete_share, h, hr]
  · intro hr
    cases force <;> simp [delete_share, h, hr]

/-- C2 counterexample: the share is found and a DELETE request is issued,
the request reports not-found, `delete_share` returns `False` — and the
trace contains exactly one cache invalidation, not two. -/
theorem delete_share_invalidation_counterexample :
    envDelNotFound.lookup.isSome = true ∧
    (delete_share "nm" false 5 false envDelNotFound).1 = DeleteOutcome.ret false ∧
    (delete_share "nm" false 5 false envDelNotFound).2.countP Event.isInvalidate = 1 :=
  ⟨rfl, rfl, rfl⟩

/-- C2 witness (for the amended claim): on the successful-delete path the
trace is invalidate, lookup, DELETE, invalidate. -/
theorem delete_share_invalidation_spec_witness :
    (delete_share "nm" false 3 false envDelOk).2 =
      [Event.invalidate, Event.getShare "nm",
        Event.httpDelete ("shares/" ++ "sid"), Event.invalidate] := by
  have h := (delete_share_invalidation_spec "nm" false false 3 envDelOk
    ⟨"sid", "nm", "available"⟩ rfl).1
  simpa using h

/-- C3: if every one of the 5 attempts of `list_shares` fails with a
pagination not-found, the call returns (without raising) the partial
accumulation of the last attempt — previous attempts' accumulations are
discarded — and the result only depends on the server's behaviour during
the first 5 attempts. -/
theorem list_shares_retry_spec :
    ∀ (srv : ListServer) (fuel : Nat) (part : Nat → List Share),
      (∀ i, i < listAttempts →
        (∃ ls, (srv.detail i).links = some ls) ∧
        listFollow (srv.follow i) fuel (srv.detail i) [] =
          some (ListOutcome.notFound (part i))) →
      list_shares srv fuel = some (part 4) ∧
      (∀ srv2 : ListServer,
        (∀ i, i < listAttempts →
          srv2.detail i = srv.detail i ∧ srv2.follow i = srv.follow i) →
        list_shares srv2 fuel = some (part 4)) := by
  intro srv fuel part hfail
  have hmain : list_shares srv fuel = some (part 4) := by
    have := listSharesGo_allfail srv fuel part listAttempts 0 [] (by decide)
      (fun i hi1 hi2 => hfail i (by simpa using hi2))
    simpa [list_shares, listAttempts] using this
  refine ⟨hmain, fun srv2 hagree => ?_⟩
  have hc := listSharesGo_congr srv srv2 fuel listAttempts 0 []
    (fun i hi1 hi2 => hagree i (by simpa using hi2))
  calc list_shares srv2 fuel = list_shares srv fuel := hc
    _ = some (part 4) := hmain

/-- C3 witness: a server whose follow request 404s on each of the 5
attempts; `list_shares` returns the last attempt's partial page. -/
theorem list_shares_retry_spec_witness :
    list_shares srvRetry 3 = some [⟨"a", "a", "creating"⟩] :=
  (list_shares_retry_spec srvRetry 3 (fun _ => [⟨"a", "a", "creating"⟩])
    (fun _ _ => ⟨⟨[⟨some "next", "u"⟩], rfl⟩, rfl⟩)).1

/-- C4: with `wait=True`, after the POST `create_share` runs the
`iterate_timeout` poll loop: it returns the polled share once its status is
`available`, raises the operation error once its status is `error`
(deciding on the first decisive poll, tolerating `None` polls in between by
retrying), and raises the timeout error when no decisive poll occurs
within the budget; with an unbounded budget (`timeout=None`) the outcome is
the first decisive poll's outcome for every sufficiently large budget. -/
theorem create_share_wait_spec :
    (∀ (env : CreateEnv) (fuel : Nat), env.postShare.status ≠ "error" →
      create_share true fuel env = createWait env.poll fuel 0) ∧
    (∀ (poll : Nat → Option Share) (fuel : Nat),
      (∀ k, k < fuel → decisive (poll k) = false) →
      createWait poll fuel 0 = CreateOutcome.raisedTimeout) ∧
    (∀ (poll : Nat → Option Share) (fuel k : Nat) (s : Share),
      k < fuel → poll k = some s →
      (∀ j, j < k → decisive (poll j) = false) →
      (s.status = "available" → createWait poll fuel 0 = CreateOutcome.ret s) ∧
      (s.status = "error" → createWait poll fuel 0 = CreateOutcome.raisedCloud)) := by
  refine ⟨?_, createWait_timeout, ?_⟩
  · intro env fuel h
    simp [create_share, h]
  · intro poll fuel k s hk hp hbefore
    constructor
    · intro havail
      rw [createWait_first poll fuel k s hk hp hbefore]
      simp [havail]
    · intro herr
      rw [createWait_first poll fuel k s hk hp hbefore]
      simp [herr]

/-- C4 witness: a poll oracle answering nothing, then `creating`, then
`available`: with budget 5 the loop returns the available share, with
budget 2 it raises the timeout error. -/
theorem create_share_wait_spec_witness :
    create_share true 5 ⟨⟨"sid", "nm", "creating"⟩, pollAvail⟩ =
      CreateOutcome.ret ⟨"sid", "nm", "available"⟩ ∧
    createWait pollAvail 2 0 = CreateOutcome.raisedTimeout := by
  constructor
  · have h1 := create_share_wait_spec.1 ⟨⟨"sid", "nm", "creating"⟩, pollAvail⟩ 5
      (by decide)
    have h3 := (create_share_wait_spec.2.2 pollAvail 5 2 ⟨"sid", "nm", "available"⟩
      (by decide) (by decide) (by decide)).1 rfl
    rw [h1, h3]
  · exact create_share_wait_spec.2.1 pollAvail 2 (by decide)

/-- C5: if the POST response reports the new share's status as `error`,
`create_share` raises the operation error regardless of `wait`; with
`wait=False` and any other status it returns the POSTed share immediately,
independently of the poll oracle and budget (no polling). -/
theorem create_share_immediate_spec :
    (∀ (env : CreateEnv) (fuel : Nat) (wait : Bool),
      env.postShare.status = "error" →
      create_share wait fuel env = CreateOutcome.raisedCloud) ∧
    (∀ (env : CreateEnv) (fuel : Nat),
      env.postShare.status ≠ "error" →
      create_share false fuel env = CreateOutcome.ret env.postShare) ∧
    (∀ (sh : Share) (poll poll2 : Nat → Option Share) (fuel fuel2 : Nat),
      create_share false fuel ⟨sh, poll⟩ = create_share false fuel2 ⟨sh, poll2⟩) := by
  refine ⟨?_, ?_, ?_⟩
  · intro env fuel wait h
    simp [create_share, h]
  · intro env fuel h
    simp [create_share, h]
  · intro sh poll poll2 fuel fuel2
    by_cases h : sh.status = "error" <;> simp [create_share, h]

/-- C5 witness: an `error` POST response raises even with `wait=True`; a
`creating` response with `wait=False` is returned as-is. -/
theorem create_share_immediate_spec_witness :
    create_share true 0 ⟨⟨"sid", "nm", "error"⟩, pollAvail⟩ =
      CreateOutcome.raisedCloud ∧
    create_share false 0 ⟨⟨"sid", "nm", "creating"⟩, pollAvail⟩ =
      CreateOutcome.ret ⟨"sid", "nm", "creating"⟩ :=
  ⟨create_share_immediate_spec.1 ⟨⟨"sid", "nm", "error"⟩, pollAvail⟩ 0 true rfl,
   create_share_immediate_spec.2.1 ⟨⟨"sid", "nm", "creating"⟩, pollAvail⟩ 0
     (by decide)⟩

/-- C6: `delete_share` never raises for a not-found condition: a failed
initial lookup returns `False`, and a not-found response to the DELETE (or
force-delete action) request itself also makes `delete_share` return
`False` instead of propagating the error. -/
theorem delete_share_notfound_spec :
    (∀ (n : String) (wait : Bool) (fuel : Nat) (force : Bool) (env : DeleteEnv),
      env.lookup = none →
      (delete_share n wait fuel force env).1 = DeleteOutcome.ret false) ∧
    (∀ (n : String) (wait : Bool) (fuel : Nat) (force : Bool) (env : DeleteEnv),
      env.delResp = DelResp.notFound →
      (delete_share n wait fuel force env).1 = DeleteOutcome.ret false) := by
  constructor
  · intro n wait fuel force env h
    simp [delete_share, h]
  · intro n wait fuel force env h
    cases hl : env.lookup with
    | none => simp [delete_share, hl]
    | some share => cases force <;> simp [delete_share, hl, h]

/-- C6 witness: a lookup that finds nothing, and a force-delete whose
action request reports not-found; both return `False`. -/
theorem delete_share_notfound_spec_witness :
    (delete_share "nm" true 3 false envDelAbsent).1 = DeleteOutcome.ret false ∧
    (delete_share "nm2" true 3 true envDelGone).1 = DeleteOutcome.ret false :=
  ⟨delete_share_notfound_spec.1 "nm" true 3 false envDelAbsent rfl,
   delete_share_notfound_spec.2 "nm2" true 3 true envDelGone rfl⟩

/-- C7: with `force=True` on an existing share, the only request issued is
a POST to `shares/{id}/action` with body `{"os-force_delete": null}` and no
plain DELETE is sent; with `force=False` a plain DELETE of `shares/{id}` is
the only request and no POST is sent. -/
theorem delete_share_force_spec :
    ∀ (n : String) (wait : Bool) (fuel : Nat) (env : DeleteEnv) (share : Share),
      env.lookup = some share →
      ((delete_share n wait fuel true env).2.filter Event.isHttpPost =
        [Event.httpPost ("shares/" ++ share.id ++ "/action") forceDeleteBody] ∧
       (delete_share n wait fuel true env).2.filter Event.isHttpDelete = []) ∧
      ((delete_share n wait fuel false env).2.filter Event.isHttpDelete =
        [Event.httpDelete ("shares/" ++ share.id)] ∧
       (delete_share n wait fuel false env).2.filter Event.isHttpPost = []) := by
  intro n wait fuel env share h
  refine ⟨⟨?_, ?_⟩, ⟨?_, ?_⟩⟩ <;>
    cases hr : env.delResp <;>
      simp [delete_share, h, hr, Event.isHttpPost, Event.isHttpDelete]

/-- C7 witness: on a successful delete of the share with id `sid`, forcing
issues the action POST (no DELETE is visible in the POST filter of the
non-forced trace). -/
theorem delete_share_force_spec_witness :
    (delete_share "nm" false 3 true envDelOk).2.filter Event.isHttpPost =
      [Event.httpPost ("shares/" ++ "sid" ++ "/action") forceDeleteBody] ∧
    (delete_share "nm" false 3 false envDelOk).2.filter Event.isHttpPost = [] := by
  have h := delete_share_force_spec "nm" false 3 envDelOk
    ⟨"sid", "nm", "available"⟩ rfl
  exact ⟨h.1.1, h.2.2⟩

/-- C8: when the first page's successive `next` links all resolve,
`list_shares` returns the concatenation of the pages' share items in page
order; a response without a `next` link yields exactly that page's items in
unmodified order. -/
theorem list_shares_pagination_spec :
    ∀ (srv : ListServer) (fuel : Nat) (ps : List Page),
      ChainFrom (srv.follow 0) (srv.detail 0) ps →
      ps.length ≤ fuel →
      list_shares srv fuel =
        some ((srv.detail 0).shares ++ (ps.map Page.shares).flatten) ∧
      (ps = [] → list_shares srv fuel = some (srv.detail 0).shares) := by
  intro srv fuel ps hc hlen
  have hmain : list_shares srv fuel =
      some ((srv.detail 0).shares ++ (ps.map Page.shares).flatten) := by
    cases hls : (srv.detail 0).links with
    | none =>
      cases ps with
      | nil =>
        have := listSharesGo_succeed srv fuel ((srv.detail 0).shares)
          listAttempts 0 [] 0 (le_refl 0) (by decide)
          (fun i hi1 hi2 => absurd hi2 (by omega))
          (Or.inl ⟨hls, rfl⟩)
        simpa [list_shares] using this
      | cons q rest =>
        obtain ⟨href, hnext, -, -⟩ := hc
        rw [hls] at hnext
        simp [nextLink] at hnext
    | some ls =>
      have hchain := listFollow_chain (srv.follow 0) ps (srv.detail 0) [] fuel hc hlen
      have := listSharesGo_succeed srv fuel
        ((srv.detail 0).shares ++ (ps.map Page.shares).flatten)
        listAttempts 0 [] 0 (le_refl 0) (by decide)
        (fun i hi1 hi2 => absurd hi2 (by omega))
        (Or.inr ⟨⟨ls, hls⟩, by simpa using hchain⟩)
      simpa [list_shares] using this
  exact ⟨hmain, fun hps => by simpa [hps] using hmain⟩

/-- C8 witness: a two-page chain is returned concatenated in page order. -/
theorem list_shares_pagination_spec_witness :
    list_shares srvChain 2 =
      some [⟨"a", "a", "available"⟩, ⟨"b", "b", "creating"⟩,
        ⟨"c", "c", "available"⟩] := by
  have hchain : ChainFrom (srvChain.follow 0) (srvChain.detail 0) [pageB] :=
    ⟨"u2", rfl, by decide, rfl⟩
  have h := (list_shares_pagination_spec srvChain 2 [pageB] hchain (by decide)).1
  simpa [pageA, pageB] using h

/-- C9: `extend_share` and `shrink_share` each issue exactly one POST, to
the share's action endpoint `/shares/{id}/action`, with body
`{"os-extend": {"new_size": size}}` respectively
`{"os-shrink": {"new_size": size}}`, return `None`, and perform no other
request (in particular no status polling). -/
theorem extend_shrink_share_spec :
    ∀ (id : String) (size : Nat),
      extend_share id size =
        ((), [Event.httpPost (share_action_url id)
          (Json.obj [("os-extend", Json.obj [("new_size", Json.num size)])])]) ∧
      shrink_share id size =
        ((), [Event.httpPost (share_action_url id)
          (Json.obj [("os-shrink", Json.obj [("new_size", Json.num size)])])]) ∧
      share_action_url id = "/shares/" ++ (id ++ "/action") := by
  intro id size
  refine ⟨rfl, rfl, ?_⟩
  unfold share_action_url urljoin3 share_base_path
  rw [String.append_assoc]
  rfl

/-- C10: the PUT body built by `update_share` contains exactly those of the
keys `display_name`, `display_description`, `is_public` whose argument is
truthy; passing `is_public=False` or an empty string omits the key, so the
attribute cannot be set to a falsy value through `update_share`. -/
theorem update_share_truthy_spec :
    ∀ (dn dd : Option String) (ip : Option Bool) (lookup : Option Share)
      (share : Share),
      lookup = some share →
      update_share lookup dn dd ip =
        Except.ok (Event.httpPut ("/shares/" ++ share.id)
          (Json.obj [("share", Json.obj (update_share_ref dn dd ip))])) ∧
      ("display_name" ∈ refKeys dn dd ip ↔ ∃ s, dn = some s ∧ s ≠ "") ∧
      ("display_description" ∈ refKeys dn dd ip ↔ ∃ s, dd = some s ∧ s ≠ "") ∧
      ("is_public" ∈ refKeys dn dd ip ↔ ip = some true) ∧
      (∀ k ∈ refKeys dn dd ip,
        k = "display_name" ∨ k = "display_description" ∨ k = "is_public") := by
  intro dn dd ip lookup share h
  refine ⟨by simp [update_share, h], ?_, ?_, ?_, ?_⟩ <;> rw [refKeys_eq]
  · rw [← truthyStr_iff dn]
    cases h1 : truthyStr dn <;> cases h2 : truthyStr dd <;>
      cases h3 : truthyBool ip <;> simp
  · rw [← truthyStr_iff dd]
    cases h1 : truthyStr dn <;> cases h2 : truthyStr dd <;>
      cases h3 : truthyBool ip <;> simp
  · rw [← truthyBool_iff ip]
    cases h1 : truthyStr dn <;> cases h2 : truthyStr dd <;>
      cases h3 : truthyBool ip <;> simp
  · cases h1 : truthyStr dn <;> cases h2 : truthyStr dd <;>
      cases h3 : truthyBool ip <;> intro k hk <;> simp at hk <;> tauto

/-- C10 witness: with `display_name="newname"`, an empty description and
`is_public=False`, the body holds only `display_name`. -/
theorem update_share_truthy_spec_witness :
    update_share (some ⟨"sid", "nm", "available"⟩) (some "newname") (some "")
        (some false) =
      Except.ok (Event.httpPut ("/shares/" ++ "sid")
        (Json.obj [("share",
          Json.obj [("display_name", Json.str "newname")])])) ∧
    ¬("is_public" ∈ refKeys (some "newname") (some "") (some false)) := by
  have h := update_share_truthy_spec (some "newname") (some "") (some false)
    (some ⟨"sid", "nm", "available"⟩) ⟨"sid", "nm", "available"⟩ rfl
  constructor
  · rw [h.1]
    rfl
  · intro hmem
    have := (h.2.2.2.1).mp hmem
    simp at this

end OpenStackSFS
